import Mathlib

/-!
Shallow embedding of the DocIntel core stores, translated from
`backend/app/services/knowledge_graph.py`, `document_store.py` and
`reasoning_engine.py`.

Modelling conventions:
* Python `dict` (insertion-ordered) is an association list; assignment to an
  existing key updates the value in place, assignment to a fresh key appends.
* Python `set` is a duplicate-free list in first-insertion order; only its
  membership is relied on, matching the fact that CPython set iteration order
  is unspecified.
* Python `float` confidences are embedded as `Rat` (exact arithmetic).
* `hashlib.md5(content).hexdigest()[:12]` is abstracted as an injective
  encoding of `content` itself: equality of ids in the model coincides with
  equality of the hashed content, which is the identification the code relies
  on (the design assumes no hash collisions).
* Wall-clock fields (`timestamp` in mentions, `upload_date` in documents) and
  the untyped `attributes`/`metadata` dicts are omitted: no operation under
  study reads them.
* Disk persistence (`_save_graph`, `_save_store`) does not change the
  in-memory state and is omitted.
-/

/-! ### Association-list primitives (Python dict / defaultdict / set) -/

/-- Lookup in an insertion-ordered association list (Python `d[k]` / `k in d`). -/
def alookup {α β : Type} [DecidableEq α] : List (α × β) → α → Option β
  | [], _ => none
  | (k1, v) :: rest, k => if k1 = k then some v else alookup rest k

/-- Python dict assignment `d[k] = v`: update in place if the key exists,
append otherwise. -/
def aupdate {α β : Type} [DecidableEq α] : List (α × β) → α → β → List (α × β)
  | [], k, v => [(k, v)]
  | (k1, v1) :: rest, k, v =>
    if k1 = k then (k, v) :: rest else (k1, v1) :: aupdate rest k v

/-- Python `del d[k]` (also removes any duplicate bindings of the key). -/
def aremove {α β : Type} [DecidableEq α] : List (α × β) → α → List (α × β)
  | [], _ => []
  | (k1, v1) :: rest, k =>
    if k1 = k then aremove rest k else (k1, v1) :: aremove rest k

/-- Python `set.add`: append if absent. -/
def setAdd {α : Type} [DecidableEq α] (l : List α) (x : α) : List α :=
  if x ∈ l then l else l ++ [x]

/-- Python `set.discard`. -/
def setRemove {α : Type} [DecidableEq α] : List α → α → List α
  | [], _ => []
  | y :: ys, x => if y = x then setRemove ys x else y :: setRemove ys x

/-- `defaultdict(set)` insertion: `d[k].add(v)` creating the bucket on demand. -/
def indexAdd (idx : List (String × List String)) (k v : String) :
    List (String × List String) :=
  aupdate idx k (setAdd ((alookup idx k).getD []) v)

/-- `if k in d: d[k].discard(v)` on a `dict` of sets. -/
def indexDiscard (idx : List (String × List String)) (k v : String) :
    List (String × List String) :=
  match alookup idx k with
  | none => idx
  | some bucket => aupdate idx k (setRemove bucket v)

/-- Contents of Python `set(l)`: duplicates dropped, first occurrence kept. -/
def dedupFirst : List String → List String :=
  fun l => l.foldl (fun acc w => if w ∈ acc then acc else acc ++ [w]) []

/-! ### String primitives (code-point based, as Python string indexing is) -/

/-- Python `str.lower()` (ASCII-faithful). -/
def pyLower (s : String) : String := ⟨s.data.map Char.toLower⟩

/-- Python `str.strip()`. -/
def pyStrip (s : String) : String :=
  ⟨((s.data.dropWhile Char.isWhitespace).reverse.dropWhile Char.isWhitespace).reverse⟩

/-- Character-list version of Python `startswith`. -/
def isPre : List Char → List Char → Bool
  | [], _ => true
  | _ :: _, [] => false
  | a :: as, b :: bs => a == b && isPre as bs

/-- Python `str.find`: index (in code points) of the first occurrence of
`needle`, `none` when absent (`-1` in the source). -/
def findSub (needle : List Char) : List Char → Option Nat
  | [] => if isPre needle [] then some 0 else none
  | c :: t => if isPre needle (c :: t) then some 0 else (findSub needle t).map (· + 1)

def strFind (hay needle : String) : Option Nat := findSub needle.data hay.data

/-- Python `needle in hay` on strings. -/
def strContains (hay needle : String) : Bool := (strFind hay needle).isSome

/-- Maximal runs of characters satisfying `p` (used for tokenizing). -/
def runsAux (p : Char → Bool) : List Char → List Char → List (List Char)
  | cur, [] => if cur.isEmpty then [] else [cur.reverse]
  | cur, c :: rest =>
    if p c then runsAux p (c :: cur) rest
    else if cur.isEmpty then runsAux p [] rest
    else cur.reverse :: runsAux p [] rest

def runs (p : Char → Bool) (l : List Char) : List (List Char) := runsAux p [] l

/-- Python `str.split()` with no separator: maximal whitespace-free runs. -/
def pySplit (s : String) : List String :=
  (runs (fun c => !c.isWhitespace) s.data).map fun r => (⟨r⟩ : String)

/-- Python `str.title()` (ASCII-faithful): a letter is uppercased when the
previous character is not a letter, lowercased otherwise. -/
def titleAux : Bool → List Char → List Char
  | _, [] => []
  | prev, c :: rest =>
    (if c.isAlpha then (if prev then c.toLower else c.toUpper) else c)
      :: titleAux c.isAlpha rest

def pyTitle (s : String) : String := ⟨titleAux false s.data⟩

/-- Stable insertion into a descending-sorted list: the new element goes in
front of every strictly smaller key and behind every key at least as large,
which reproduces Python `list.sort(key=…, reverse=True)` (a stable sort). -/
def insDesc {α : Type} (key : α → Nat) (x : α) : List α → List α
  | [] => [x]
  | y :: ys => if key x < key y then y :: insDesc key x ys else x :: y :: ys

def sortDesc {α : Type} (key : α → Nat) : List α → List α
  | [] => []
  | x :: xs => insDesc key x (sortDesc key xs)

/-! ### Knowledge graph data model (`knowledge_graph.py`) -/

/-- One element of `Entity.mentions` (the `timestamp` field, taken from the
wall clock, is omitted; nothing under study reads it). -/
structure Mention where
  document_id : String
  context : String
  confidence : Rat
deriving DecidableEq, Repr

/-- Embeds the `Entity` dataclass (`attributes`, an untyped dict never touched
by the operations under study, is omitted). -/
structure Entity where
  id : String
  text : String
  canonical_name : String
  entity_type : String
  mentions : List Mention
deriving DecidableEq, Repr

/-- One element of `Relationship.evidence`. -/
structure Evidence where
  document_id : String
  sentence : String
  confidence : Rat
deriving DecidableEq, Repr

/-- Embeds the `Relationship` dataclass. The string id
`f"{source}_{relation_type}_{target}"` is kept as the structured triple it
encodes (entity ids are hex digests in the source, so the encoding is
injective). -/
structure Relationship where
  source_entity_id : String
  target_entity_id : String
  relation_type : String
  evidence : List Evidence
  confidence : Rat
deriving DecidableEq, Repr

/-- Key of `_relationships`: (source id, relation type, target id). -/
abbrev RelKey := String × String × String

/-- In-memory state of `KnowledgeGraphService`. -/
structure KGState where
  entities : List (String × Entity)
  relationships : List (RelKey × Relationship)
  entity_index : List (String × List String)
  doc_entities : List (String × List String)
deriving DecidableEq, Repr

def emptyKG : KGState := ⟨[], [], [], []⟩

/-- Embeds `_generate_id`; the md5 truncation is abstracted as an injective
encoding of its input `f"{text.lower()}:{entity_type}"`. -/
def generate_id (text entity_type : String) : String :=
  pyLower text ++ ":" ++ entity_type

/-- Honorifics stripped by `_canonicalize` (its `prefixes` list). -/
def honorifics : List String := ["Mr.", "Mrs.", "Ms.", "Dr.", "Prof.", "The "]

/-- Embeds `_canonicalize`. -/
def canonicalize (text entity_type : String) : String :=
  let c := pyStrip text
  let c := honorifics.foldl
    (fun c p => if isPre p.data c.data then pyStrip ⟨c.data.drop p.data.length⟩ else c) c
  if entity_type = "PERSON" ∨ entity_type = "ORG" then pyTitle c else c

/-- Embeds `Entity.add_mention` (appends; timestamp omitted). -/
def entity_add_mention (e : Entity) (doc_id context : String) (confidence : Rat) :
    Entity :=
  { e with mentions := e.mentions ++ [⟨doc_id, context, confidence⟩] }

/-- Embeds `Relationship.add_evidence`: append the evidence entry, then set
`confidence` to the arithmetic mean of all evidence confidences. -/
def rel_add_evidence (r : Relationship) (doc_id sentence : String)
    (confidence : Rat) : Relationship :=
  let ev := r.evidence ++ [⟨doc_id, sentence, confidence⟩]
  { r with evidence := ev,
           confidence := (ev.map fun e => e.confidence).sum / (ev.length : Rat) }

/-- Embeds `KnowledgeGraphService.add_entity`. Note that `_entity_index` is
only touched in the branch that creates a new entity, exactly as in the
source. -/
def add_entity (s : KGState) (text entity_type doc_id context : String)
    (confidence : Rat) : KGState × Entity :=
  let canonical := canonicalize text entity_type
  let entity_id := generate_id canonical entity_type
  match alookup s.entities entity_id with
  | some e =>
    let e2 := entity_add_mention e doc_id context confidence
    ({ s with entities := aupdate s.entities entity_id e2,
              doc_entities := indexAdd s.doc_entities doc_id entity_id }, e2)
  | none =>
    let e2 := entity_add_mention
      ⟨entity_id, text, canonical, entity_type, []⟩ doc_id context confidence
    ({ s with entities := aupdate s.entities entity_id e2,
              entity_index := indexAdd s.entity_index (pyLower text) entity_id,
              doc_entities := indexAdd s.doc_entities doc_id entity_id }, e2)

/-- Embeds `KnowledgeGraphService.add_relationship`. Returns the unchanged
state and `none` (Python `None`) when either endpoint is not registered. -/
def add_relationship (s : KGState) (source_id target_id relation_type doc_id
    sentence : String) (confidence : Rat) : KGState × Option Relationship :=
  if (alookup s.entities source_id).isNone ∨ (alookup s.entities target_id).isNone
  then (s, none)
  else
    let rel_id : RelKey := (source_id, relation_type, target_id)
    match alookup s.relationships rel_id with
    | some r =>
      let r2 := rel_add_evidence r doc_id sentence confidence
      ({ s with relationships := aupdate s.relationships rel_id r2 }, some r2)
    | none =>
      let r2 := rel_add_evidence
        ⟨source_id, target_id, relation_type, [], confidence⟩ doc_id sentence confidence
      ({ s with relationships := aupdate s.relationships rel_id r2 }, some r2)

/-- Embeds `_extract_context` with its default `window = 100`. -/
def extract_context (full_text entity_text : String) : String :=
  match strFind (pyLower full_text) (pyLower entity_text) with
  | none => ""
  | some pos =>
    let start := pos - 100
    let stop := min full_text.data.length (pos + entity_text.data.length + 100)
    pyStrip ⟨(full_text.data.drop start).take (stop - start)⟩

/-- The entity-record dicts handed to `add_entities_from_document`
(`{"text": …, "label": …, "score": …}`; the source supplies defaults with
`.get`, here the fields are total). -/
structure EntityRecord where
  text : String
  label : String
  score : Rat
deriving DecidableEq, Repr

/-- The per-record loop of `add_entities_from_document`: extract a context
window and upsert each entity, collecting the returned entities in order. -/
def addAllEntities (doc_id full_text : String) :
    KGState → List EntityRecord → KGState × List Entity
  | s, [] => (s, [])
  | s, r :: rest =>
    let p := add_entity s r.text r.label doc_id (extract_context full_text r.text) r.score
    let q := addAllEntities doc_id full_text p.1 rest
    (q.1, p.2 :: q.2)

/-- The `i < j` index pairs `(entity_ids[i], entity_ids[j])` enumerated by the
nested loops of `_detect_cooccurrence_relationships`. -/
def cooccurPairs : List String → List (String × String)
  | [] => []
  | x :: rest => (rest.map fun y => (x, y)) ++ cooccurPairs rest

/-- Embeds `_detect_cooccurrence_relationships`. -/
def detect_cooccurrence (doc_id : String) (s : KGState) (ids : List String) :
    KGState :=
  (cooccurPairs ids).foldl
    (fun st p =>
      if p.1 = p.2 then st
      else (add_relationship st p.1 p.2 "CO_OCCURS" doc_id
              ("Both mentioned in document " ++ doc_id) (1/2)).1)
    s

/-- Embeds `add_entities_from_document`. -/
def add_entities_from_document (s : KGState) (doc_id : String)
    (entities : List EntityRecord) (full_text : String) : KGState × List Entity :=
  let p := addAllEntities doc_id full_text s entities
  (detect_cooccurrence doc_id p.1 (p.2.map fun e => e.id), p.2)

/-- Embeds `find_entity`: bucket lookup on the lowercase raw text, keeping the
ids still registered. -/
def find_entity (s : KGState) (text : String) : List Entity :=
  ((alookup s.entity_index (pyLower text)).getD []).filterMap
    fun eid => alookup s.entities eid

/-- The match test of `search_entities` (query already lowercased). -/
def entityMatches (q : String) (e : Entity) : Bool :=
  strContains (pyLower e.text) q || strContains (pyLower e.canonical_name) q

/-- The scan loop of `search_entities`: collect matches in storage order and
stop as soon as `limit` of them have been gathered. -/
def scanMatches (q : String) (limit : Nat) :
    List Entity → List Entity → List Entity
  | acc, [] => acc
  | acc, e :: rest =>
    if entityMatches q e then
      if limit ≤ (acc ++ [e]).length then acc ++ [e]
      else scanMatches q limit (acc ++ [e]) rest
    else scanMatches q limit acc rest

/-- Embeds `search_entities`: scan (with early break), then stable sort by
mention count descending, then truncate. -/
def search_entities (s : KGState) (query : String) (limit : Nat) : List Entity :=
  let q := pyLower query
  (sortDesc (fun e => e.mentions.length)
    (scanMatches q limit [] (s.entities.map fun p => p.2))).take limit

/-! ### Document store data model (`document_store.py`) -/

/-- One element of `Document.chunks`. -/
structure Chunk where
  index : Nat
  text : String
  start_word : Nat
  end_word : Nat
deriving DecidableEq, Repr

/-- Embeds the `Document` dataclass (`upload_date`, a wall-clock reading, and
the untyped `metadata` dict are omitted; nothing under study reads them). -/
structure Document where
  id : String
  filename : String
  content : String
  summary : String
  file_type : String
  word_count : Nat
  entity_ids : List String
  keywords : List String
  chunks : List Chunk
deriving DecidableEq, Repr

/-- In-memory state of `DocumentStoreService`. -/
structure DSState where
  documents : List (String × Document)
  keyword_index : List (String × List String)
deriving DecidableEq, Repr

def emptyDS : DSState := ⟨[], []⟩

/-- Word characters of the regex `\b…\b` boundaries (`\w`, ASCII). -/
def isWordChar (c : Char) : Bool := c.isAlphanum || c == '_'

/-- The matches of `re.findall(r"\b[a-zA-Z]{3,}\b", text.lower())`: a match
must start and end at a word boundary, and word boundaries only occur at the
edges of maximal `\w`-runs, so the matches are exactly the maximal word-char
runs that are entirely alphabetic and at least 3 characters long. -/
def keywordTokens (text : String) : List String :=
  ((runs isWordChar (pyLower text).data).filter
    fun r => r.all Char.isAlpha && decide (3 ≤ r.length)).map
    fun r => (⟨r⟩ : String)

/-- The `stopwords` set literal of `_extract_keywords` (the source lists
`"could"` twice; a set dedups, so it appears once here). -/
def stopwords : List String :=
  ["the", "and", "for", "that", "this", "with", "are", "was", "were",
   "been", "have", "has", "had", "from", "they", "will", "would", "could",
   "should", "may", "might", "can", "into", "which", "their",
   "there", "here", "where", "when", "what", "who", "how", "all", "each",
   "every", "both", "few", "more", "most", "other", "some", "such", "than",
   "too", "very", "just", "also", "now", "only", "even", "back", "after",
   "before", "over", "under", "again", "further", "then", "once", "about"]

/-- The frequency-count loop of `_extract_keywords` (`word_freq` dict,
insertion-ordered by first occurrence). -/
def countFreq (ws : List String) : List (String × Nat) :=
  ws.foldl
    (fun acc w =>
      match alookup acc w with
      | some n => aupdate acc w (n + 1)
      | none => acc ++ [(w, 1)])
    []

/-- Embeds `_extract_keywords` with its default `top_n = 20`. Note the
post-tokenization filter keeps only words with `len(w) > 3` (strictly more
than three characters), as in the source. -/
def extract_keywords (text : String) : List String :=
  let filtered := (keywordTokens text).filter
    fun w => !(decide (w ∈ stopwords)) && decide (3 < w.length)
  ((sortDesc (fun p => p.2) (countFreq filtered)).take 20).map fun p => p.1

/-- The `while start < len(words)` loop of `_chunk_document` with the default
`chunk_size = 500`, `overlap = 100` (stride 400). The loop advances `start`
by 400 each iteration, so `words.length + 1` iterations always suffice; the
fuel argument makes the recursion structural without changing the result. -/
def chunkAux (words : List String) : Nat → Nat → Nat → List Chunk
  | 0, _, _ => []
  | fuel + 1, start, idx =>
    if start < words.length then
      let stop := min (start + 500) words.length
      ⟨idx, " ".intercalate ((words.drop start).take 500), start, stop⟩
        :: chunkAux words fuel (start + 400) (idx + 1)
    else []

/-- Embeds `_chunk_document` (defaults `chunk_size = 500`, `overlap = 100`). -/
def chunk_document (text : String) : List Chunk :=
  let words := pySplit text
  chunkAux words (words.length + 1) 0 0

/-- Embeds `DocumentStoreService.add_document`. -/
def add_document (s : DSState) (doc_id filename content summary file_type : String)
    (entity_ids : List String) : DSState × Document :=
  let keywords := extract_keywords content
  let doc : Document :=
    ⟨doc_id, filename, content, summary, file_type,
     (pySplit content).length, entity_ids, keywords, chunk_document content⟩
  ({ documents := aupdate s.documents doc_id doc,
     keyword_index := keywords.foldl (fun ki k => indexAdd ki k doc_id) s.keyword_index },
   doc)

/-- Embeds `delete_document`: `False` and no change when the id is absent,
otherwise remove the document and discard the id from the bucket of each of
its keywords. -/
def delete_document (s : DSState) (doc_id : String) : DSState × Bool :=
  match alookup s.documents doc_id with
  | none => (s, false)
  | some doc =>
    ({ documents := aremove s.documents doc_id,
       keyword_index := doc.keywords.foldl (fun ki k => indexDiscard ki k doc_id)
         s.keyword_index },
     true)

/-- The per-document score of `search_full_text`: distinct query words found
in the lowercased content, plus twice the distinct query words that equal one
of the document keywords. -/
def docScore (qwords : List String) (doc : Document) : Nat :=
  (qwords.filter fun w => strContains (pyLower doc.content) w).length +
    2 * (qwords.filter fun w => decide (w ∈ doc.keywords)).length

/-- Embeds `search_full_text`: keep documents with positive score in storage
order, stable-sort by score descending, truncate. -/
def search_full_text (s : DSState) (query : String) (max_results : Nat) :
    List (Document × Nat) :=
  let qwords := dedupFirst (pySplit (pyLower query))
  let results := (s.documents.map fun p => p.2).filterMap
    fun doc =>
      let score := docScore qwords doc
      if 0 < score then some (doc, score) else none
  (sortDesc (fun p => p.2) results).take max_results

/-! ### Reasoning engine (`reasoning_engine.py`) -/

/-- The dict appended to `direct_relations` in `find_connections`. -/
structure RelView where
  rtype : String
  confidence : Rat
  evidence : List Evidence
deriving DecidableEq, Repr

/-- The `direct_relations` loop of `find_connections`: relationships between
the two resolved ids, checked in both directions. -/
def directRels (s : KGState) (a b : String) : List RelView :=
  ((s.relationships.map fun p => p.2).filter
    fun r => decide ((r.source_entity_id = a ∧ r.target_entity_id = b) ∨
                     (r.source_entity_id = b ∧ r.target_entity_id = a))).map
    fun r => ⟨r.relation_type, r.confidence, r.evidence⟩

/-- `set(m["document_id"] for m in e.mentions)`. -/
def mentionDocs (e : Entity) : List String :=
  dedupFirst (e.mentions.map fun m => m.document_id)

/-- `e1_docs & e2_docs` (shared documents; list in first-insertion order of
the first operand — only its membership is meaningful, as for Python sets). -/
def sharedDocs (e1 e2 : Entity) : List String :=
  (mentionDocs e1).filter fun d => decide (d ∈ mentionDocs e2)

/-- The `connection_strength` classification. -/
def connStrength (direct : List RelView) (shared : List String) : String :=
  if direct.isEmpty then (if shared.isEmpty then "weak" else "moderate")
  else "strong"

/-- The result record of `find_connections` restricted to the fields with
store-determined contents (`common_connections` and `summary`, whose order
depends on Python set iteration order, are not modelled). -/
structure ConnResult where
  entity1 : String
  entity2 : String
  connection_strength : String
  direct_relationships : List RelView
  shared_documents : List String
deriving DecidableEq, Repr

/-- The successful body of `find_connections` on resolved entities. -/
def mkConn (s : KGState) (e1 e2 : Entity) : ConnResult :=
  ⟨e1.canonical_name, e2.canonical_name,
   connStrength (directRels s e1.id e2.id) (sharedDocs e1 e2),
   directRels s e1.id e2.id, sharedDocs e1 e2⟩

/-- Embeds `ReasoningEngine.find_connections`: resolve both names through the
exact-text index (first match wins), `none` (the failure dict) when either is
unresolved. -/
def find_connections (s : KGState) (name1 name2 : String) : Option ConnResult :=
  match find_entity s name1, find_entity s name2 with
  | e1 :: _, e2 :: _ => some (mkConn s e1 e2)
  | _, _ => none

/-! ### Invariant predicates and reachable states -/

/-- Store invariant: every entity in `_entities` sits under its own id as key
(true of every state the service can construct). -/
def EntitiesKeyed (s : KGState) : Prop := ∀ p ∈ s.entities, p.2.id = p.1

/-- The confidence/evidence contract re-established by every call to
`add_evidence`: nonempty evidence, confidence equal to the mean. -/
def RelMeanOk (r : Relationship) : Prop :=
  r.evidence ≠ [] ∧
    r.confidence = (r.evidence.map fun e => e.confidence).sum / (r.evidence.length : Rat)

/-- Every stored relationship keeps its confidence equal to the mean of its
evidence confidences. -/
def ConfOk (s : KGState) : Prop := ∀ p ∈ s.relationships, RelMeanOk p.2

/-- Every stored relationship points at registered entities. -/
def EndpointsOk (s : KGState) : Prop :=
  ∀ p ∈ s.relationships,
    (alookup s.entities p.2.source_entity_id).isSome ∧
      (alookup s.entities p.2.target_entity_id).isSome

/-- Every stored relationship sits under the key derived from its own fields,
mirroring `rel_id = f"{source}_{relation_type}_{target}"`. -/
def WellKeyed (s : KGState) : Prop :=
  ∀ p ∈ s.relationships,
    p.1 = (p.2.source_entity_id, p.2.relation_type, p.2.target_entity_id)

/-- The states the knowledge-graph service can reach from an empty store by
its mutating operations. -/
inductive KGReach : KGState → Prop
  | init : KGReach emptyKG
  | addE (s : KGState) (t ty d c : String) (cf : Rat) :
      KGReach s → KGReach (add_entity s t ty d c cf).1
  | addR (s : KGState) (a b rt d sen : String) (cf : Rat) :
      KGReach s → KGReach (add_relationship s a b rt d sen cf).1
  | ingest (s : KGState) (doc : String) (ents : List EntityRecord) (ft : String) :
      KGReach s → KGReach (add_entities_from_document s doc ents ft).1

/-- Document-store invariant: every stored document sits under its own id
(true of every state `add_document` can build). -/
def KeysOk (s : DSState) : Prop := ∀ p ∈ s.documents, p.2.id = p.1

/-! ### Concrete states used to exercise the theorems -/

/-- Two distinct entities built from the empty graph. -/
def kgTwoEntities : KGState :=
  (add_entity (add_entity emptyKG "aaa" "MISC" "d1" "" 1).1 "aab" "MISC" "d1" "" 1).1

/-- One relationship between them with a single evidence entry of confidence 1. -/
def kgRelOnce : KGState :=
  (add_relationship kgTwoEntities "aaa:MISC" "aab:MISC" "REL" "d1" "s1" 1).1

/-- The same relationship after a second evidence entry of confidence 1/5. -/
def kgRelTwice : KGState :=
  (add_relationship kgRelOnce "aaa:MISC" "aab:MISC" "REL" "d2" "s2" (1/5)).1

/-- The value stored for that relationship: two evidence entries, confidence
recomputed to the mean (1 + 1/5) / 2 = 3/5. -/
def relTwiceValue : Relationship :=
  ⟨"aaa:MISC", "aab:MISC", "REL",
   [⟨"d1", "s1", 1⟩, ⟨"d2", "s2", 1/5⟩], 3/5⟩

/-- Entity "aaa" with one mention inserted before entity "aab", which then
accumulates two mentions. -/
def kgSearchState : KGState :=
  (add_entity (add_entity (add_entity emptyKG
    "aaa" "MISC" "d1" "" 1).1 "aab" "MISC" "d1" "" 1).1 "aab" "MISC" "d2" "" 1).1

/-- Upserting "Jane Smith" and then the alternate surface form
"Dr. Jane Smith", which merges into the same entity. -/
def kgJane : KGState :=
  (add_entity (add_entity emptyKG
    "Jane Smith" "PERSON" "d1" "" 1).1 "Dr. Jane Smith" "PERSON" "d2" "" 1).1

/-- Three-record ingestion input resolving to three distinct entities. -/
def threeRecords : List EntityRecord :=
  [⟨"aa", "MISC", 1⟩, ⟨"bb", "MISC", 1⟩, ⟨"cc", "MISC", 1⟩]

/-- The CO_OCCURS relationship created for the pair (aa, bb) of that
ingestion. -/
def cooccurValue : Relationship :=
  ⟨"aa:MISC", "bb:MISC", "CO_OCCURS",
   [⟨"d", "Both mentioned in document d", 1/2⟩], 1/2⟩

/-- Two-record ingestion from the empty graph (used for the self-loop claim). -/
def kgIngestTwo : KGState :=
  (add_entities_from_document emptyKG "d" [⟨"aa", "MISC", 1⟩, ⟨"bb", "MISC", 1⟩] "").1

/-- A store holding document d1 whose only keyword is "alpha". -/
def dsOne : DSState := (add_document emptyDS "d1" "f1" "alpha alpha alpha" "" "txt" []).1

/-- The same store after re-ingesting d1 with fresh content whose only keyword
is "bravo": the "alpha" bucket still holds d1. -/
def dsReingested : DSState :=
  (add_document dsOne "d1" "f1" "bravo bravo" "" "txt" []).1

/-- A store holding two documents with disjoint keywords. -/
def dsTwo : DSState := (add_document dsOne "d2" "f2" "bravo bravo" "" "txt" []).1

/-- The stored value of document d1 in `dsOne` and `dsTwo`. -/
def doc1Value : Document :=
  ⟨"d1", "f1", "alpha alpha alpha", "", "txt", 3, [], ["alpha"],
   [⟨0, "alpha alpha alpha", 0, 3⟩]⟩

/-- The stored value of document d2 in `dsTwo`. -/
def doc2Value : Document :=
  ⟨"d2", "f2", "bravo bravo", "", "txt", 2, [], ["bravo"],
   [⟨0, "bravo bravo", 0, 2⟩]⟩

/-! ### Association-list lemmas -/

theorem alookup_mem {α β : Type} [DecidableEq α] {l : List (α × β)} {k : α}
    {v : β} (h : alookup l k = some v) : (k, v) ∈ l := by
  induction l with
  | nil => simp [alookup] at h
  | cons p rest ih =>
    obtain ⟨k1, v1⟩ := p
    by_cases hk : k1 = k
    · subst hk
      simp [alookup] at h
      simp [h]
    · simp [alookup, hk] at h
      exact List.mem_cons_of_mem _ (ih h)

theorem alookup_aupdate_self {α β : Type} [DecidableEq α] (l : List (α × β))
    (k : α) (v : β) : alookup (aupdate l k v) k = some v := by
  induction l with
  | nil => simp [aupdate, alookup]
  | cons p rest ih =>
    obtain ⟨k1, v1⟩ := p
    by_cases hk : k1 = k
    · simp [aupdate, hk, alookup]
    · simp [aupdate, hk, alookup, ih]

theorem alookup_aupdate_ne {α β : Type} [DecidableEq α] (l : List (α × β))
    {k k2 : α} (v : β) (h : k2 ≠ k) :
    alookup (aupdate l k v) k2 = alookup l k2 := by
  have hne : k ≠ k2 := fun hh => h hh.symm
  induction l with
  | nil => simp [aupdate, alookup, hne]
  | cons p rest ih =>
    obtain ⟨k1, v1⟩ := p
    by_cases hk : k1 = k
    · subst hk
      simp [aupdate, alookup, hne]
    · simp only [aupdate, if_neg hk, alookup]
      by_cases hk2 : k1 = k2 <;> simp [hk2, ih]

theorem mem_aupdate {α β : Type} [DecidableEq α] {l : List (α × β)} {k : α}
    {v : β} {p : α × β} (h : p ∈ aupdate l k v) : p ∈ l ∨ p = (k, v) := by
  induction l with
  | nil => simp [aupdate] at h; simp [h]
  | cons q rest ih =>
    obtain ⟨k1, v1⟩ := q
    by_cases hk : k1 = k
    · simp [aupdate, hk] at h
      rcases h with h | h
      · right; simp [h]
      · left; exact List.mem_cons_of_mem _ h
    · simp only [aupdate, if_neg hk, List.mem_cons] at h
      rcases h with h | h
      · left; simp [h]
      · rcases ih h with h2 | h2
        · left; exact List.mem_cons_of_mem _ h2
        · right; exact h2

theorem aupdate_of_lookup_none {α β : Type} [DecidableEq α] {l : List (α × β)}
    {k : α} (v : β) (h : alookup l k = none) : aupdate l k v = l ++ [(k, v)] := by
  induction l with
  | nil => simp [aupdate]
  | cons p rest ih =>
    obtain ⟨k1, v1⟩ := p
    by_cases hk : k1 = k
    · simp [alookup, hk] at h
    · simp [alookup, hk] at h
      simp [aupdate, hk, ih h]

theorem alookup_aremove_self {α β : Type} [DecidableEq α] (l : List (α × β))
    (k : α) : alookup (aremove l k) k = none := by
  induction l with
  | nil => simp [aremove, alookup]
  | cons p rest ih =>
    obtain ⟨k1, v1⟩ := p
    by_cases hk : k1 = k
    · simp [aremove, hk, ih]
    · simp [aremove, hk, alookup, ih]

theorem mem_aremove {α β : Type} [DecidableEq α] {l : List (α × β)} {k : α}
    {p : α × β} (h : p ∈ aremove l k) : p ∈ l ∧ p.1 ≠ k := by
  induction l with
  | nil => simp [aremove] at h
  | cons q rest ih =>
    obtain ⟨k1, v1⟩ := q
    by_cases hk : k1 = k
    · simp only [aremove, if_pos hk] at h
      exact ⟨List.mem_cons_of_mem _ (ih h).1, (ih h).2⟩
    · simp only [aremove, if_neg hk, List.mem_cons] at h
      rcases h with h | h
      · exact ⟨by simp [h], by simp [h, hk]⟩
      · exact ⟨List.mem_cons_of_mem _ (ih h).1, (ih h).2⟩

theorem not_mem_setRemove_self {α : Type} [DecidableEq α] (l : List α) (x : α) :
    x ∉ setRemove l x := by
  induction l with
  | nil => simp [setRemove]
  | cons y ys ih =>
    by_cases hy : y = x
    · simpa [setRemove, hy] using ih
    · simp [setRemove, hy, ih, Ne.symm hy]

theorem mem_dedupFirst_aux (l acc : List String) (x : String) :
    x ∈ l.foldl (fun acc w => if w ∈ acc then acc else acc ++ [w]) acc ↔
      x ∈ acc ∨ x ∈ l := by
  induction l generalizing acc with
  | nil => simp
  | cons w ws ih =>
    by_cases hw : w ∈ acc
    · simp only [List.foldl_cons, if_pos hw, ih]
      constructor
      · rintro (h | h)
        · exact Or.inl h
        · exact Or.inr (List.mem_cons_of_mem _ h)
      · rintro (h | h)
        · exact Or.inl h
        · rcases List.mem_cons.mp h with h | h
          · exact Or.inl (h ▸ hw)
          · exact Or.inr h
    · simp only [List.foldl_cons, if_neg hw, ih, List.mem_append,
        List.mem_singleton, List.mem_cons]
      tauto

theorem mem_dedupFirst (l : List String) (x : String) :
    x ∈ dedupFirst l ↔ x ∈ l := by
  simpa using mem_dedupFirst_aux l [] x

/-! ### Stable descending sort: permutation and sortedness -/

theorem insDesc_perm {α : Type} (key : α → Nat) (x : α) (l : List α) :
    List.Perm (insDesc key x l) (x :: l) := by
  induction l with
  | nil => exact List.Perm.refl _
  | cons y ys ih =>
    by_cases h : key x < key y
    · simp only [insDesc, if_pos h]
      exact (ih.cons y).trans (List.Perm.swap x y ys)
    · simp only [insDesc, if_neg h]
      exact List.Perm.refl _

theorem sortDesc_perm {α : Type} (key : α → Nat) (l : List α) :
    List.Perm (sortDesc key l) l := by
  induction l with
  | nil => exact List.Perm.refl _
  | cons x xs ih => exact (insDesc_perm key x (sortDesc key xs)).trans (ih.cons x)

theorem insDesc_pairwise {α : Type} {key : α → Nat} {x : α} {l : List α}
    (h : l.Pairwise fun a b => key b ≤ key a) :
    (insDesc key x l).Pairwise fun a b => key b ≤ key a := by
  induction l with
  | nil => simp [insDesc]
  | cons y ys ih =>
    rcases List.pairwise_cons.mp h with ⟨hy, hys⟩
    by_cases hlt : key x < key y
    · simp only [insDesc, if_pos hlt]
      refine List.pairwise_cons.mpr ⟨?_, ih hys⟩
      intro b hb
      rcases List.mem_cons.mp ((insDesc_perm key x ys).mem_iff.mp hb) with rfl | hb2
      · exact Nat.le_of_lt hlt
      · exact hy b hb2
    · simp only [insDesc, if_neg hlt]
      refine List.pairwise_cons.mpr ⟨?_, h⟩
      intro b hb
      rcases List.mem_cons.mp hb with rfl | hb2
      · exact Nat.le_of_not_lt hlt
      · exact Nat.le_trans (hy b hb2) (Nat.le_of_not_lt hlt)

theorem sortDesc_pairwise {α : Type} (key : α → Nat) (l : List α) :
    (sortDesc key l).Pairwise fun a b => key b ≤ key a := by
  induction l with
  | nil => simp [sortDesc]
  | cons x xs ih => exact insDesc_pairwise ih

/-! ### The scan loop of `search_entities` -/

theorem scanMatches_eq (q : String) (limit : Nat) :
    ∀ (l acc : List Entity), acc.length < limit →
      scanMatches q limit acc l =
        acc ++ (l.filter (entityMatches q)).take (limit - acc.length) := by
  intro l
  induction l with
  | nil => intro acc _; simp [scanMatches]
  | cons e rest ih =>
    intro acc hacc
    cases hm : entityMatches q e with
    | true =>
      by_cases hfull : limit ≤ (acc ++ [e]).length
      · have hfull2 : limit ≤ acc.length + 1 := by simpa using hfull
        have hlim : limit - acc.length = 1 := by omega
        simp [scanMatches, hm, hfull2, hlim, List.filter_cons, List.take_succ_cons]
      · have hfull2 : ¬ limit ≤ acc.length + 1 := by
          intro h2; exact hfull (by simpa using h2)
        have hlt : (acc ++ [e]).length < limit := Nat.lt_of_not_le hfull
        have hrec := ih (acc ++ [e]) hlt
        have hlen : limit - acc.length = (limit - (acc.length + 1)) + 1 := by omega
        simp only [List.length_append, List.length_cons, List.length_nil,
          Nat.zero_add] at hrec
        simp [scanMatches, hm, hfull2, hrec, List.filter_cons, hlen,
          List.take_succ_cons, List.append_assoc]
    | false =>
      simp [scanMatches, hm, ih acc hacc, List.filter_cons]

/-! ### Basic facts about the knowledge-graph operations -/

theorem add_entity_relationships (s : KGState) (t ty d c : String) (cf : Rat) :
    (add_entity s t ty d c cf).1.relationships = s.relationships := by
  simp only [add_entity]
  cases h : alookup s.entities (generate_id (canonicalize t ty) ty) <;> simp

theorem add_entity_lookup_mono (s : KGState) (t ty d c : String) (cf : Rat)
    (k : String) (h : (alookup s.entities k).isSome) :
    (alookup (add_entity s t ty d c cf).1.entities k).isSome := by
  have base : ∀ (k2 : String) (v : Entity),
      (alookup (aupdate s.entities k2 v) k).isSome := by
    intro k2 v
    by_cases hk : k = k2
    · subst hk; simp [alookup_aupdate_self]
    · rw [alookup_aupdate_ne s.entities v hk]; exact h
  simp only [add_entity]
  cases h2 : alookup s.entities (generate_id (canonicalize t ty) ty) <;>
    simpa using base _ _

theorem entitiesKeyed_empty : EntitiesKeyed emptyKG := by
  intro p hp; simp [emptyKG] at hp

theorem entity_add_mention_id (e : Entity) (d c : String) (cf : Rat) :
    (entity_add_mention e d c cf).id = e.id := rfl

theorem entitiesKeyed_add_entity (s : KGState) (t ty d c : String) (cf : Rat)
    (h : EntitiesKeyed s) : EntitiesKeyed (add_entity s t ty d c cf).1 := by
  simp only [add_entity]
  cases h2 : alookup s.entities (generate_id (canonicalize t ty) ty) with
  | some e =>
    intro p hp
    simp only at hp
    rcases mem_aupdate hp with hold | hnew
    · exact h p hold
    · subst hnew
      simpa [entity_add_mention_id] using h _ (alookup_mem h2)
  | none =>
    intro p hp
    simp only at hp
    rcases mem_aupdate hp with hold | hnew
    · exact h p hold
    · subst hnew; rfl

theorem add_entity_ret_id (s : KGState) (t ty d c : String) (cf : Rat)
    (h : EntitiesKeyed s) :
    (add_entity s t ty d c cf).2.id = generate_id (canonicalize t ty) ty := by
  simp only [add_entity]
  cases h2 : alookup s.entities (generate_id (canonicalize t ty) ty) with
  | some e => simpa [entity_add_mention_id] using h _ (alookup_mem h2)
  | none => rfl

theorem add_entity_ret_lookup (s : KGState) (t ty d c : String) (cf : Rat) :
    alookup (add_entity s t ty d c cf).1.entities
      (generate_id (canonicalize t ty) ty) = some (add_entity s t ty d c cf).2 := by
  simp only [add_entity]
  cases h2 : alookup s.entities (generate_id (canonicalize t ty) ty) <;>
    simpa using alookup_aupdate_self s.entities _ _

theorem rel_add_evidence_source (r : Relationship) (d sen : String) (cf : Rat) :
    (rel_add_evidence r d sen cf).source_entity_id = r.source_entity_id := rfl

theorem rel_add_evidence_target (r : Relationship) (d sen : String) (cf : Rat) :
    (rel_add_evidence r d sen cf).target_entity_id = r.target_entity_id := rfl

theorem rel_add_evidence_rtype (r : Relationship) (d sen : String) (cf : Rat) :
    (rel_add_evidence r d sen cf).relation_type = r.relation_type := rfl

theorem relMeanOk_add_evidence (r : Relationship) (d sen : String) (cf : Rat) :
    RelMeanOk (rel_add_evidence r d sen cf) := by
  constructor
  · simp [rel_add_evidence]
  · rfl

theorem add_relationship_entities (s : KGState) (a b rt d sen : String) (cf : Rat) :
    (add_relationship s a b rt d sen cf).1.entities = s.entities := by
  simp only [add_relationship]
  split
  · rfl
  · split <;> rfl

theorem add_relationship_entity_index (s : KGState) (a b rt d sen : String)
    (cf : Rat) :
    (add_relationship s a b rt d sen cf).1.entity_index = s.entity_index := by
  simp only [add_relationship]
  split
  · rfl
  · split <;> rfl

theorem add_relationship_lookup_ne (s : KGState) (a b rt d sen : String)
    (cf : Rat) {k : RelKey} (hk : k ≠ (a, rt, b)) :
    alookup (add_relationship s a b rt d sen cf).1.relationships k =
      alookup s.relationships k := by
  simp only [add_relationship]
  split
  · rfl
  · split <;> simpa using alookup_aupdate_ne s.relationships _ hk

theorem add_relationship_mem (s : KGState) (a b rt d sen : String) (cf : Rat)
    {p : RelKey × Relationship}
    (hp : p ∈ (add_relationship s a b rt d sen cf).1.relationships) :
    p ∈ s.relationships ∨
      (∃ r0, alookup s.relationships (a, rt, b) = some r0 ∧
        p = ((a, rt, b), rel_add_evidence r0 d sen cf)) ∨
      p = ((a, rt, b), rel_add_evidence ⟨a, b, rt, [], cf⟩ d sen cf) := by
  simp only [add_relationship] at hp
  split at hp
  · exact Or.inl hp
  · split at hp
    · rename_i r0 heq
      rcases mem_aupdate hp with hold | hnew
      · exact Or.inl hold
      · exact Or.inr (Or.inl ⟨r0, heq, hnew⟩)
    · rcases mem_aupdate hp with hold | hnew
      · exact Or.inl hold
      · exact Or.inr (Or.inr hnew)

theorem add_relationship_fresh (s : KGState) (a b rt d sen : String) (cf : Rat)
    (ha : (alookup s.entities a).isSome) (hb : (alookup s.entities b).isSome)
    (hnone : alookup s.relationships (a, rt, b) = none) :
    (add_relationship s a b rt d sen cf).1.relationships =
      s.relationships ++ [((a, rt, b), rel_add_evidence ⟨a, b, rt, [], cf⟩ d sen cf)] := by
  simp only [add_relationship, hnone]
  split
  · rename_i hcond
    exfalso
    rcases hcond with h1 | h1 <;> simp_all [Option.isNone_iff_eq_none]
  · simpa using aupdate_of_lookup_none _ hnone

/-! ### Store invariants and reachable states -/

theorem confOk_empty : ConfOk emptyKG := by intro p hp; simp [emptyKG] at hp

theorem endpointsOk_empty : EndpointsOk emptyKG := by
  intro p hp; simp [emptyKG] at hp

theorem wellKeyed_empty : WellKeyed emptyKG := by intro p hp; simp [emptyKG] at hp

theorem confOk_add_entity (s : KGState) (t ty d c : String) (cf : Rat)
    (h : ConfOk s) : ConfOk (add_entity s t ty d c cf).1 := by
  intro p hp
  rw [add_entity_relationships] at hp
  exact h p hp

theorem wellKeyed_add_entity (s : KGState) (t ty d c : String) (cf : Rat)
    (h : WellKeyed s) : WellKeyed (add_entity s t ty d c cf).1 := by
  intro p hp
  rw [add_entity_relationships] at hp
  exact h p hp

theorem endpointsOk_add_entity (s : KGState) (t ty d c : String) (cf : Rat)
    (h : EndpointsOk s) : EndpointsOk (add_entity s t ty d c cf).1 := by
  intro p hp
  rw [add_entity_relationships] at hp
  exact ⟨add_entity_lookup_mono s t ty d c cf _ (h p hp).1,
         add_entity_lookup_mono s t ty d c cf _ (h p hp).2⟩

theorem confOk_add_relationship (s : KGState) (a b rt d sen : String) (cf : Rat)
    (h : ConfOk s) : ConfOk (add_relationship s a b rt d sen cf).1 := by
  intro p hp
  rcases add_relationship_mem s a b rt d sen cf hp with hold | ⟨r0, _, hnew⟩ | hnew
  · exact h p hold
  · rw [hnew]; exact relMeanOk_add_evidence r0 d sen cf
  · rw [hnew]; exact relMeanOk_add_evidence _ d sen cf

theorem wellKeyed_add_relationship (s : KGState) (a b rt d sen : String)
    (cf : Rat) (h : WellKeyed s) :
    WellKeyed (add_relationship s a b rt d sen cf).1 := by
  intro p hp
  rcases add_relationship_mem s a b rt d sen cf hp with hold | ⟨r0, hr0, hnew⟩ | hnew
  · exact h p hold
  · rw [hnew]
    have h2 := h _ (alookup_mem hr0)
    simp only [rel_add_evidence_source, rel_add_evidence_target,
      rel_add_evidence_rtype]
    exact h2
  · rw [hnew]; rfl

theorem endpointsOk_add_relationship (s : KGState) (a b rt d sen : String)
    (cf : Rat) (h : EndpointsOk s) :
    EndpointsOk (add_relationship s a b rt d sen cf).1 := by
  intro p hp
  rw [add_relationship_entities]
  simp only [add_relationship] at hp
  split at hp
  · exact h p hp
  · rename_i hcond
    simp only [not_or, Option.isNone_iff_eq_none] at hcond
    split at hp
    · rename_i r0 heq
      rcases mem_aupdate hp with hold | hnew
      · exact h p hold
      · rw [hnew]
        simp only [rel_add_evidence_source, rel_add_evidence_target]
        exact h _ (alookup_mem heq)
    · rcases mem_aupdate hp with hold | hnew
      · exact h p hold
      · rw [hnew]
        simp only [rel_add_evidence_source, rel_add_evidence_target]
        exact ⟨Option.isSome_iff_ne_none.mpr hcond.1,
               Option.isSome_iff_ne_none.mpr hcond.2⟩

theorem foldl_preserves {σ τ : Type} {P : σ → Prop} {f : σ → τ → σ}
    (h : ∀ s x, P s → P (f s x)) :
    ∀ (l : List τ) (s : σ), P s → P (l.foldl f s) := by
  intro l
  induction l with
  | nil => intro s hs; exact hs
  | cons x xs ih => intro s hs; exact ih _ (h s x hs)

theorem invariant_detect_cooccurrence {P : KGState → Prop}
    (hstep : ∀ st a b rt d sen cf, P st → P (add_relationship st a b rt d sen cf).1)
    (doc : String) (s : KGState) (ids : List String) (h : P s) :
    P (detect_cooccurrence doc s ids) := by
  refine foldl_preserves ?_ (cooccurPairs ids) s h
  intro st p hst
  by_cases hp : p.1 = p.2
  · simpa [detect_cooccurrence, hp] using hst
  · simpa [detect_cooccurrence, hp] using hstep st p.1 p.2 _ _ _ _ hst

theorem invariant_addAllEntities {P : KGState → Prop}
    (hstep : ∀ st t ty d c cf, P st → P (add_entity st t ty d c cf).1)
    (doc ft : String) :
    ∀ (ents : List EntityRecord) (s : KGState), P s →
      P (addAllEntities doc ft s ents).1 := by
  intro ents
  induction ents with
  | nil => intro s hs; exact hs
  | cons r rest ih =>
    intro s hs
    exact ih _ (hstep s _ _ _ _ _ hs)

theorem confOk_ingest (s : KGState) (doc : String) (ents : List EntityRecord)
    (ft : String) (h : ConfOk s) :
    ConfOk (add_entities_from_document s doc ents ft).1 := by
  simp only [add_entities_from_document]
  exact invariant_detect_cooccurrence
    (fun st a b rt d sen cf => confOk_add_relationship st a b rt d sen cf) doc _ _
    (invariant_addAllEntities
      (fun st t ty d c cf => confOk_add_entity st t ty d c cf) doc ft ents s h)

theorem endpointsOk_ingest (s : KGState) (doc : String)
    (ents : List EntityRecord) (ft : String) (h : EndpointsOk s) :
    EndpointsOk (add_entities_from_document s doc ents ft).1 := by
  simp only [add_entities_from_document]
  exact invariant_detect_cooccurrence
    (fun st a b rt d sen cf => endpointsOk_add_relationship st a b rt d sen cf) doc _ _
    (invariant_addAllEntities
      (fun st t ty d c cf => endpointsOk_add_entity st t ty d c cf) doc ft ents s h)

theorem wellKeyed_ingest (s : KGState) (doc : String) (ents : List EntityRecord)
    (ft : String) (h : WellKeyed s) :
    WellKeyed (add_entities_from_document s doc ents ft).1 := by
  simp only [add_entities_from_document]
  exact invariant_detect_cooccurrence
    (fun st a b rt d sen cf => wellKeyed_add_relationship st a b rt d sen cf) doc _ _
    (invariant_addAllEntities
      (fun st t ty d c cf => wellKeyed_add_entity st t ty d c cf) doc ft ents s h)

theorem kgReach_confOk (s : KGState) (h : KGReach s) : ConfOk s := by
  induction h with
  | init => exact confOk_empty
  | addE s t ty d c cf _ ih => exact confOk_add_entity s t ty d c cf ih
  | addR s a b rt d sen cf _ ih => exact confOk_add_relationship s a b rt d sen cf ih
  | ingest s doc ents ft _ ih => exact confOk_ingest s doc ents ft ih

theorem kgReach_endpointsOk (s : KGState) (h : KGReach s) : EndpointsOk s := by
  induction h with
  | init => exact endpointsOk_empty
  | addE s t ty d c cf _ ih => exact endpointsOk_add_entity s t ty d c cf ih
  | addR s a b rt d sen cf _ ih => exact endpointsOk_add_relationship s a b rt d sen cf ih
  | ingest s doc ents ft _ ih => exact endpointsOk_ingest s doc ents ft ih

/-! ### Ingestion machinery: entity phase -/

theorem alookup_append_none {α β : Type} [DecidableEq α] {l1 : List (α × β)}
    (l2 : List (α × β)) {k : α} (h : alookup l1 k = none) :
    alookup (l1 ++ l2) k = alookup l2 k := by
  induction l1 with
  | nil => simp
  | cons p rest ih =>
    obtain ⟨k1, v1⟩ := p
    by_cases hk : k1 = k
    · simp [alookup, hk] at h
    · simp only [alookup, if_neg hk] at h
      simp only [List.cons_append, alookup, if_neg hk]
      exact ih h

theorem addAll_relationships (doc ft : String) :
    ∀ (ents : List EntityRecord) (s : KGState),
      (addAllEntities doc ft s ents).1.relationships = s.relationships := by
  intro ents
  induction ents with
  | nil => intro s; rfl
  | cons r rest ih =>
    intro s
    simp only [addAllEntities]
    rw [ih, add_entity_relationships]

theorem addAll_ret_length (doc ft : String) :
    ∀ (ents : List EntityRecord) (s : KGState),
      (addAllEntities doc ft s ents).2.length = ents.length := by
  intro ents
  induction ents with
  | nil => intro s; rfl
  | cons r rest ih => intro s; simp [addAllEntities, ih]

theorem addAll_lookup_mono (doc ft : String) (ents : List EntityRecord)
    (s : KGState) (k : String) (h : (alookup s.entities k).isSome) :
    (alookup (addAllEntities doc ft s ents).1.entities k).isSome := by
  induction ents generalizing s with
  | nil => exact h
  | cons r rest ih =>
    exact ih _ (add_entity_lookup_mono s _ _ _ _ _ k h)

theorem addAll_entitiesKeyed (doc ft : String) (ents : List EntityRecord)
    (s : KGState) (h : EntitiesKeyed s) :
    EntitiesKeyed (addAllEntities doc ft s ents).1 := by
  induction ents generalizing s with
  | nil => exact h
  | cons r rest ih => exact ih _ (entitiesKeyed_add_entity s _ _ _ _ _ h)

theorem addAll_ret_registered (doc ft : String) (ents : List EntityRecord)
    (s : KGState) (h : EntitiesKeyed s) :
    ∀ e ∈ (addAllEntities doc ft s ents).2,
      (alookup (addAllEntities doc ft s ents).1.entities e.id).isSome := by
  induction ents generalizing s with
  | nil => intro e he; simp [addAllEntities] at he
  | cons r rest ih =>
    intro e he
    have hcons : addAllEntities doc ft s (r :: rest) =
        ((addAllEntities doc ft
            (add_entity s r.text r.label doc (extract_context ft r.text) r.score).1
            rest).1,
          (add_entity s r.text r.label doc (extract_context ft r.text) r.score).2
            :: (addAllEntities doc ft
                (add_entity s r.text r.label doc (extract_context ft r.text) r.score).1
                rest).2) := rfl
    rw [hcons] at he ⊢
    rcases List.mem_cons.mp he with he2 | he2
    · subst he2
      refine addAll_lookup_mono doc ft rest _ _ ?_
      rw [add_entity_ret_id s _ _ _ _ _ h, add_entity_ret_lookup]
      rfl
    · exact ih _ (entitiesKeyed_add_entity s _ _ _ _ _ h) e he2

/-! ### Ingestion machinery: co-occurrence phase -/

theorem cooccurPairs_mem {l : List String} {p : String × String}
    (h : p ∈ cooccurPairs l) : p.1 ∈ l ∧ p.2 ∈ l := by
  induction l with
  | nil => simp [cooccurPairs] at h
  | cons x rest ih =>
    simp only [cooccurPairs, List.mem_append, List.mem_map] at h
    rcases h with ⟨y, hy, hp⟩ | h
    · subst hp
      exact ⟨List.mem_cons_self x rest, List.mem_cons_of_mem x hy⟩
    · exact ⟨List.mem_cons_of_mem x (ih h).1, List.mem_cons_of_mem x (ih h).2⟩

theorem cooccurPairs_nodup {l : List String} (h : l.Nodup) :
    (cooccurPairs l).Nodup ∧ ∀ p ∈ cooccurPairs l, p.1 ≠ p.2 := by
  induction l with
  | nil => constructor <;> simp [cooccurPairs]
  | cons x rest ih =>
    rcases List.nodup_cons.mp h with ⟨hx, hrest⟩
    rcases ih hrest with ⟨ihnd, ihne⟩
    constructor
    · simp only [cooccurPairs]
      refine List.Nodup.append ?_ ihnd ?_
      · exact List.Nodup.map (fun a b hab => by simpa using hab) hrest
      · intro p hp1 hp2
        rcases List.mem_map.mp hp1 with ⟨y, _, hy⟩
        have hmem := (cooccurPairs_mem hp2).1
        rw [← hy] at hmem
        exact hx hmem
    · intro p hp
      simp only [cooccurPairs, List.mem_append, List.mem_map] at hp
      rcases hp with ⟨y, hy, hp⟩ | hp
      · subst hp
        intro hxy
        simp only at hxy
        rw [hxy] at hx
        exact hx hy
      · exact ihne p hp

theorem cooccur_len_aux :
    ∀ l : List String,
      2 * (cooccurPairs l).length + 2 * l.length = l.length * l.length + l.length := by
  intro l
  induction l with
  | nil => rfl
  | cons x r ih =>
    simp only [cooccurPairs, List.length_append, List.length_map, List.length_cons]
    have hring : (r.length + 1) * (r.length + 1) + (r.length + 1)
        = (r.length * r.length + r.length) + (2 * r.length + 2) := by ring
    rw [hring, ← ih]
    ring

theorem cooccurPairs_double_length (l : List String) :
    2 * (cooccurPairs l).length = l.length * (l.length - 1) := by
  have h := cooccur_len_aux l
  cases hn : l.length with
  | zero =>
    have hl : l = [] := List.eq_nil_of_length_eq_zero hn
    subst hl; rfl
  | succ m =>
    rw [hn] at h
    simp only [Nat.succ_sub_one]
    have hring : (m + 1) * (m + 1) + (m + 1)
        = (m + 1) * m + (2 * (m + 1)) := by ring
    rw [hring] at h
    exact Nat.add_right_cancel h

/-- Folding the co-occurrence step over pairs of distinct, registered entity
ids whose relationship keys are all fresh appends one freshly evidenced
`CO_OCCURS` edge per pair. -/
theorem detect_fold_fresh (doc : String) :
    ∀ (ps : List (String × String)) (s : KGState),
      (∀ p ∈ ps, p.1 ≠ p.2 ∧ (alookup s.entities p.1).isSome ∧
        (alookup s.entities p.2).isSome) →
      (ps.map fun p => ((p.1, "CO_OCCURS", p.2) : RelKey)).Nodup →
      (∀ p ∈ ps, alookup s.relationships (p.1, "CO_OCCURS", p.2) = none) →
      (ps.foldl
        (fun st p =>
          if p.1 = p.2 then st
          else (add_relationship st p.1 p.2 "CO_OCCURS" doc
                  ("Both mentioned in document " ++ doc) (1/2)).1)
        s).relationships =
      s.relationships ++ ps.map fun p =>
        (((p.1, "CO_OCCURS", p.2) : RelKey),
          rel_add_evidence ⟨p.1, p.2, "CO_OCCURS", [], 1/2⟩ doc
            ("Both mentioned in document " ++ doc) (1/2)) := by
  intro ps
  induction ps with
  | nil => intro s _ _ _; simp
  | cons p rest ih =>
    intro s hok hnd hfresh
    rcases hok p (List.mem_cons_self p rest) with ⟨hne, ha, hb⟩
    have hfreshp := hfresh p (List.mem_cons_self p rest)
    have hnd2 : ((p.1, "CO_OCCURS", p.2) : RelKey) ∉
        (rest.map fun q => ((q.1, "CO_OCCURS", q.2) : RelKey)) ∧
        (rest.map fun q => ((q.1, "CO_OCCURS", q.2) : RelKey)).Nodup := by
      simpa using hnd
    have hstep := add_relationship_fresh s p.1 p.2 "CO_OCCURS" doc
      ("Both mentioned in document " ++ doc) (1/2) ha hb hfreshp
    have hent := add_relationship_entities s p.1 p.2 "CO_OCCURS" doc
      ("Both mentioned in document " ++ doc) (1/2)
    have hok2 : ∀ q ∈ rest, q.1 ≠ q.2 ∧
        (alookup (add_relationship s p.1 p.2 "CO_OCCURS" doc
          ("Both mentioned in document " ++ doc) (1/2)).1.entities q.1).isSome ∧
        (alookup (add_relationship s p.1 p.2 "CO_OCCURS" doc
          ("Both mentioned in document " ++ doc) (1/2)).1.entities q.2).isSome := by
      intro q hq
      rw [hent]
      exact hok q (List.mem_cons_of_mem p hq)
    have hfresh2 : ∀ q ∈ rest,
        alookup (add_relationship s p.1 p.2 "CO_OCCURS" doc
          ("Both mentioned in document " ++ doc) (1/2)).1.relationships
          (q.1, "CO_OCCURS", q.2) = none := by
      intro q hq
      rw [hstep, alookup_append_none _ (hfresh q (List.mem_cons_of_mem p hq))]
      have hqk : ¬ (((p.1, "CO_OCCURS", p.2) : RelKey) = (q.1, "CO_OCCURS", q.2)) := by
        intro hcon
        exact hnd2.1 (hcon ▸ List.mem_map_of_mem _ hq)
      simp [alookup, hqk]
    simp only [List.foldl_cons, if_neg hne]
    rw [ih _ hok2 hnd2.2 hfresh2, hstep]
    simp [List.append_assoc]

/-! ### Change tracking through ingestion (self-loop analysis) -/

theorem add_relationship_changed_key (s : KGState) (a b rt d sen : String)
    (cf : Rat) {k : RelKey}
    (h : alookup (add_relationship s a b rt d sen cf).1.relationships k ≠
      alookup s.relationships k) : k = (a, rt, b) := by
  by_contra hk
  exact h (add_relationship_lookup_ne s a b rt d sen cf hk)

theorem add_relationship_fail (s : KGState) (a b rt d sen : String) (cf : Rat)
    (hc : (alookup s.entities a).isNone = true ∨
      (alookup s.entities b).isNone = true) :
    add_relationship s a b rt d sen cf = (s, none) := by
  simp only [add_relationship]
  rw [if_pos hc]

theorem add_relationship_update (s : KGState) (a b rt d sen : String) (cf : Rat)
    {r0 : Relationship}
    (hc : ¬ ((alookup s.entities a).isNone = true ∨
      (alookup s.entities b).isNone = true))
    (heq : alookup s.relationships (a, rt, b) = some r0) :
    add_relationship s a b rt d sen cf =
      ({ s with relationships :=
          aupdate s.relationships (a, rt, b) (rel_add_evidence r0 d sen cf) },
        some (rel_add_evidence r0 d sen cf)) := by
  simp only [add_relationship]
  rw [if_neg hc, heq]

theorem add_relationship_create (s : KGState) (a b rt d sen : String) (cf : Rat)
    (hc : ¬ ((alookup s.entities a).isNone = true ∨
      (alookup s.entities b).isNone = true))
    (heq : alookup s.relationships (a, rt, b) = none) :
    add_relationship s a b rt d sen cf =
      ({ s with
          relationships :=
            aupdate s.relationships (a, rt, b) (rel_add_evidence ⟨a, b, rt, [], cf⟩ d sen cf) },
        some (rel_add_evidence ⟨a, b, rt, [], cf⟩ d sen cf)) := by
  simp only [add_relationship]
  rw [if_neg hc, heq]

theorem add_relationship_changed_val (s : KGState) (a b rt d sen : String)
    (cf : Rat) (hw : WellKeyed s) {k : RelKey}
    (h : alookup (add_relationship s a b rt d sen cf).1.relationships k ≠
      alookup s.relationships k) :
    ∃ r, alookup (add_relationship s a b rt d sen cf).1.relationships k = some r ∧
      r.source_entity_id = a ∧ r.target_entity_id = b := by
  have hk := add_relationship_changed_key s a b rt d sen cf h
  subst hk
  by_cases hc : (alookup s.entities a).isNone = true ∨
      (alookup s.entities b).isNone = true
  · rw [add_relationship_fail s a b rt d sen cf hc] at h
    exact absurd rfl h
  · cases heq : alookup s.relationships (a, rt, b) with
    | some r0 =>
      rw [add_relationship_update s a b rt d sen cf hc heq]
      refine ⟨rel_add_evidence r0 d sen cf, ?_, ?_, ?_⟩
      · exact alookup_aupdate_self s.relationships _ _
      · rw [rel_add_evidence_source]
        exact congrArg (fun q => q.1) (hw _ (alookup_mem heq)).symm
      · rw [rel_add_evidence_target]
        exact congrArg (fun q => q.2.2) (hw _ (alookup_mem heq)).symm
    | none =>
      rw [add_relationship_create s a b rt d sen cf hc heq]
      exact ⟨rel_add_evidence ⟨a, b, rt, [], cf⟩ d sen cf,
        alookup_aupdate_self s.relationships _ _, rfl, rfl⟩

theorem detect_fold_changes (doc : String) :
    ∀ (ps : List (String × String)) (s : KGState), WellKeyed s → ∀ k : RelKey,
      alookup ((ps.foldl
        (fun st p =>
          if p.1 = p.2 then st
          else (add_relationship st p.1 p.2 "CO_OCCURS" doc
                  ("Both mentioned in document " ++ doc) (1/2)).1)
        s).relationships) k ≠ alookup s.relationships k →
      ∃ r, alookup ((ps.foldl
        (fun st p =>
          if p.1 = p.2 then st
          else (add_relationship st p.1 p.2 "CO_OCCURS" doc
                  ("Both mentioned in document " ++ doc) (1/2)).1)
        s).relationships) k = some r ∧
        r.source_entity_id ≠ r.target_entity_id := by
  intro ps
  induction ps with
  | nil => intro s _ k h; exact absurd rfl h
  | cons p rest ih =>
    intro s hw k h
    by_cases hpp : p.1 = p.2
    · simp only [List.foldl_cons, if_pos hpp] at h ⊢
      exact ih s hw k h
    · simp only [List.foldl_cons, if_neg hpp] at h ⊢
      have hw1 : WellKeyed (add_relationship s p.1 p.2 "CO_OCCURS" doc
          ("Both mentioned in document " ++ doc) (1/2)).1 :=
        wellKeyed_add_relationship s p.1 p.2 "CO_OCCURS" doc
          ("Both mentioned in document " ++ doc) (1/2) hw
      by_cases hmid : alookup ((rest.foldl
          (fun st p =>
            if p.1 = p.2 then st
            else (add_relationship st p.1 p.2 "CO_OCCURS" doc
                    ("Both mentioned in document " ++ doc) (1/2)).1)
          (add_relationship s p.1 p.2 "CO_OCCURS" doc
            ("Both mentioned in document " ++ doc) (1/2)).1).relationships) k =
          alookup (add_relationship s p.1 p.2 "CO_OCCURS" doc
            ("Both mentioned in document " ++ doc) (1/2)).1.relationships k
      · rw [hmid] at h ⊢
        rcases add_relationship_changed_val s p.1 p.2 "CO_OCCURS" doc
          ("Both mentioned in document " ++ doc) (1/2) hw h with ⟨r, hr, hsrc, htgt⟩
        exact ⟨r, hr, by rw [hsrc, htgt]; exact hpp⟩
      · exact ih _ hw1 k hmid

/-! ### Symmetry facts for `find_connections` -/

theorem directRels_symm (s : KGState) (a b : String) :
    directRels s a b = directRels s b a := by
  unfold directRels
  congr 1
  apply List.filter_congr
  intro r _
  apply decide_eq_decide.mpr
  tauto

theorem mem_sharedDocs (e1 e2 : Entity) (d : String) :
    d ∈ sharedDocs e1 e2 ↔ d ∈ mentionDocs e1 ∧ d ∈ mentionDocs e2 := by
  unfold sharedDocs
  rw [List.mem_filter]
  simp

theorem sharedDocs_eq_nil_iff (e1 e2 : Entity) :
    sharedDocs e1 e2 = [] ↔ sharedDocs e2 e1 = [] := by
  rw [List.eq_nil_iff_forall_not_mem, List.eq_nil_iff_forall_not_mem]
  constructor
  · intro h d hd
    rcases (mem_sharedDocs e2 e1 d).mp hd with ⟨h2, h1⟩
    exact h d ((mem_sharedDocs e1 e2 d).mpr ⟨h1, h2⟩)
  · intro h d hd
    rcases (mem_sharedDocs e1 e2 d).mp hd with ⟨h1, h2⟩
    exact h d ((mem_sharedDocs e2 e1 d).mpr ⟨h2, h1⟩)

theorem connStrength_swap (s : KGState) (e1 e2 : Entity) :
    connStrength (directRels s e1.id e2.id) (sharedDocs e1 e2) =
      connStrength (directRels s e2.id e1.id) (sharedDocs e2 e1) := by
  rw [directRels_symm]
  unfold connStrength
  by_cases hd : (directRels s e2.id e1.id).isEmpty
  · simp only [hd]
    by_cases hs : sharedDocs e1 e2 = []
    · rw [List.isEmpty_iff.mpr hs,
        List.isEmpty_iff.mpr ((sharedDocs_eq_nil_iff e1 e2).mp hs)]
    · have hs2 : ¬ sharedDocs e2 e1 = [] := fun hcon =>
        hs ((sharedDocs_eq_nil_iff e1 e2).mpr hcon)
      rw [List.isEmpty_eq_false_iff_exists_mem.mpr
            (List.exists_mem_of_ne_nil _ hs),
          List.isEmpty_eq_false_iff_exists_mem.mpr
            (List.exists_mem_of_ne_nil _ hs2)]
  · simp [hd]

/-! ### Index bucket facts -/

theorem mem_setAdd_self {α : Type} [DecidableEq α] (l : List α) (x : α) :
    x ∈ setAdd l x := by
  unfold setAdd
  by_cases h : x ∈ l <;> simp [h]

theorem indexAdd_self_mem (idx : List (String × List String)) (k v : String) :
    v ∈ ((alookup (indexAdd idx k v) k).getD []) := by
  unfold indexAdd
  rw [alookup_aupdate_self]
  exact mem_setAdd_self _ v

theorem indexDiscard_self (ki : List (String × List String)) (k v : String) :
    v ∉ ((alookup (indexDiscard ki k v) k).getD []) := by
  unfold indexDiscard
  cases h : alookup ki k with
  | none => simp [h]
  | some bucket =>
    rw [alookup_aupdate_self]
    exact not_mem_setRemove_self bucket v

theorem indexDiscard_not_mem (ki : List (String × List String)) (k0 k v : String)
    (h : v ∉ ((alookup ki k).getD [])) :
    v ∉ ((alookup (indexDiscard ki k0 v) k).getD []) := by
  unfold indexDiscard
  cases h0 : alookup ki k0 with
  | none => exact h
  | some bucket =>
    by_cases hk : k = k0
    · subst hk
      rw [alookup_aupdate_self]
      exact not_mem_setRemove_self bucket v
    · rw [alookup_aupdate_ne ki _ hk]
      exact h

theorem discard_fold_preserves (v : String) :
    ∀ (ks : List String) (ki : List (String × List String)) (k : String),
      v ∉ ((alookup ki k).getD []) →
      v ∉ ((alookup (ks.foldl (fun ki kk => indexDiscard ki kk v) ki) k).getD []) := by
  intro ks
  induction ks with
  | nil => intro ki k h; exact h
  | cons k0 rest ih =>
    intro ki k h
    exact ih _ k (indexDiscard_not_mem ki k0 k v h)

theorem discard_fold_self (v : String) :
    ∀ (ks : List String) (ki : List (String × List String)), ∀ k ∈ ks,
      v ∉ ((alookup (ks.foldl (fun ki kk => indexDiscard ki kk v) ki) k).getD []) := by
  intro ks
  induction ks with
  | nil => intro ki k hk; simp at hk
  | cons k0 rest ih =>
    intro ki k hk
    rcases List.mem_cons.mp hk with hk | hk
    · subst hk
      exact discard_fold_preserves v rest _ k (indexDiscard_self ki k v)
    · exact ih _ k hk

/-! ### Document deletion and search facts -/

theorem delete_document_absent (s : DSState) (d : String)
    (h : alookup s.documents d = none) : delete_document s d = (s, false) := by
  simp [delete_document, h]

theorem delete_document_present (s : DSState) (d : String) {doc : Document}
    (h : alookup s.documents d = some doc) :
    delete_document s d =
      ({ documents := aremove s.documents d,
         keyword_index :=
           doc.keywords.foldl (fun ki k => indexDiscard ki k d) s.keyword_index },
        true) := by
  simp [delete_document, h]

theorem search_full_text_mem (s : DSState) (q : String) (n : Nat)
    {p : Document × Nat} (hp : p ∈ search_full_text s q n) :
    p.1 ∈ s.documents.map fun x => x.2 := by
  unfold search_full_text at hp
  have h1 := List.mem_of_mem_take hp
  have h2 := (sortDesc_perm (α := Document × Nat) (fun x => x.2) _).mem_iff.mp h1
  rcases List.mem_filterMap.mp h2 with ⟨doc, hdoc, hf⟩
  by_cases hsc : 0 < docScore (dedupFirst (pySplit (pyLower q))) doc
  · rw [if_pos hsc] at hf
    have h3 := Option.some.inj hf
    have h4 : p.1 = doc := (congrArg Prod.fst h3).symm
    rw [h4]
    exact hdoc
  · rw [if_neg hsc] at hf
    exact absurd hf (by simp)

/-! ### Claim theorems -/

/-- Claim C1: entity canonicalization is idempotent and the entity id is a
pure function of (canonical name, entity type). Any two raw strings that
canonicalize identically for the same type merge into one entity: the two
upserts return the same entity id, the store afterwards holds exactly that
single entity, and its mention list has length 2. The witness instantiates
the spec scenario "Dr. Jane Smith" / "Jane Smith" as PERSON. -/
theorem claim_c1_canonicalization_merges
    (t1 t2 ty d1 d2 c1 c2 : String) (cf1 cf2 : Rat)
    (h : canonicalize t1 ty = canonicalize t2 ty) :
    (add_entity emptyKG t1 ty d1 c1 cf1).2.id =
      (add_entity (add_entity emptyKG t1 ty d1 c1 cf1).1 t2 ty d2 c2 cf2).2.id ∧
    (add_entity (add_entity emptyKG t1 ty d1 c1 cf1).1 t2 ty d2 c2 cf2).2.mentions.length
      = 2 ∧
    (add_entity (add_entity emptyKG t1 ty d1 c1 cf1).1 t2 ty d2 c2 cf2).1.entities =
      [((add_entity emptyKG t1 ty d1 c1 cf1).2.id,
        (add_entity (add_entity emptyKG t1 ty d1 c1 cf1).1 t2 ty d2 c2 cf2).2)] := by
  have hid : generate_id (canonicalize t2 ty) ty =
      generate_id (canonicalize t1 ty) ty := by rw [h]
  simp [add_entity, emptyKG, hid, alookup, aupdate, indexAdd, setAdd,
    entity_add_mention]

/-- Witness for C1 at the concrete instance of the spec: honorific-stripped
"Dr. Jane Smith" and "Jane Smith" (PERSON) merge, with two mentions. -/
theorem claim_c1_witness :
    (add_entity emptyKG "Dr. Jane Smith" "PERSON" "doc1" "" 1).2.id =
      (add_entity (add_entity emptyKG "Dr. Jane Smith" "PERSON" "doc1" "" 1).1
        "Jane Smith" "PERSON" "doc2" "" 1).2.id ∧
    (add_entity (add_entity emptyKG "Dr. Jane Smith" "PERSON" "doc1" "" 1).1
      "Jane Smith" "PERSON" "doc2" "" 1).2.mentions.length = 2 ∧
    (add_entity (add_entity emptyKG "Dr. Jane Smith" "PERSON" "doc1" "" 1).1
      "Jane Smith" "PERSON" "doc2" "" 1).1.entities =
      [((add_entity emptyKG "Dr. Jane Smith" "PERSON" "doc1" "" 1).2.id,
        (add_entity (add_entity emptyKG "Dr. Jane Smith" "PERSON" "doc1" "" 1).1
          "Jane Smith" "PERSON" "doc2" "" 1).2)] :=
  claim_c1_canonicalization_merges "Dr. Jane Smith" "Jane Smith" "PERSON"
    "doc1" "doc2" "" "" 1 1 (by decide)

/-- Claim C3: after every operation (every reachable state), every stored
relationship has confidence equal to the arithmetic mean of the confidences of
its evidence entries. -/
theorem claim_c3_confidence_is_mean (s : KGState) (hs : KGReach s) (k : RelKey)
    (r : Relationship) (h : alookup s.relationships k = some r) :
    r.evidence ≠ [] ∧
      r.confidence =
        (r.evidence.map fun e => e.confidence).sum / (r.evidence.length : Rat) :=
  kgReach_confOk s hs (k, r) (alookup_mem h)

unseal Rat.mul Rat.inv Rat.add in
/-- Witness for C3: a relationship whose evidence carries confidences 1 and
1/5 (the 1.0 and 0.2 of the claim) has confidence the mean 3/5 (its 0.6). -/
theorem claim_c3_witness :
    relTwiceValue.evidence ≠ [] ∧
      relTwiceValue.confidence =
        (relTwiceValue.evidence.map fun e => e.confidence).sum /
          (relTwiceValue.evidence.length : Rat) ∧
      relTwiceValue.confidence = 3/5 := by
  have hreach : KGReach kgRelTwice :=
    KGReach.addR _ _ _ _ _ _ _ (KGReach.addR _ _ _ _ _ _ _
      (KGReach.addE _ _ _ _ _ _ (KGReach.addE _ _ _ _ _ _ KGReach.init)))
  have h := claim_c3_confidence_is_mean kgRelTwice hreach
    ("aaa:MISC", "REL", "aab:MISC") relTwiceValue (by decide)
  exact ⟨h.1, h.2, by decide⟩

/-- Claim C4: dangling-edge rejection with atomicity. If either endpoint id is
unregistered, `add_relationship` returns `none` and the whole state (in
particular the relationship collection) is unchanged; consequently, in every
reachable state the endpoints of every stored edge are registered entities. -/
theorem claim_c4_dangling_rejected (s : KGState) (src tgt rt d sen : String)
    (cf : Rat) :
    ((alookup s.entities src = none ∨ alookup s.entities tgt = none) →
      add_relationship s src tgt rt d sen cf = (s, none)) ∧
    (KGReach s → ∀ p ∈ s.relationships,
      (alookup s.entities p.2.source_entity_id).isSome ∧
        (alookup s.entities p.2.target_entity_id).isSome) := by
  constructor
  · intro hcond
    apply add_relationship_fail
    rcases hcond with h1 | h1
    · exact Or.inl (by simp [h1])
    · exact Or.inr (by simp [h1])
  · intro hreach p hp
    exact kgReach_endpointsOk s hreach p hp

unseal Rat.mul Rat.inv Rat.add in
/-- Witness for C4: on the empty store the upsert fails and returns the store
unchanged; in a reachable two-entity state the stored edge endpoints are
registered. -/
theorem claim_c4_witness :
    add_relationship emptyKG "x:MISC" "y:MISC" "REL" "d" "s" 1 = (emptyKG, none) ∧
    ((alookup kgRelTwice.entities relTwiceValue.source_entity_id).isSome ∧
      (alookup kgRelTwice.entities relTwiceValue.target_entity_id).isSome) := by
  have hreach : KGReach kgRelTwice :=
    KGReach.addR _ _ _ _ _ _ _ (KGReach.addR _ _ _ _ _ _ _
      (KGReach.addE _ _ _ _ _ _ (KGReach.addE _ _ _ _ _ _ KGReach.init)))
  refine ⟨(claim_c4_dangling_rejected emptyKG "x:MISC" "y:MISC" "REL" "d" "s" 1).1
      (Or.inl rfl), ?_⟩
  exact (claim_c4_dangling_rejected kgRelTwice "x" "y" "R" "d" "s" 1).2 hreach
    (("aaa:MISC", "REL", "aab:MISC"), relTwiceValue) (by decide)

/-- Claim C2: co-occurrence completeness. Ingesting, into the empty graph, a
document whose entity records resolve to pairwise-distinct entities creates
exactly k(k-1)/2 relationships, each of type CO_OCCURS, with confidence 1/2
and a single evidence entry naming the document, joining two distinct
entities. The witness instantiates k = 3, giving exactly 3 edges. -/
theorem claim_c2_cooccurrence_complete (doc ft : String)
    (ents : List EntityRecord)
    (h : (((add_entities_from_document emptyKG doc ents ft).2).map
      fun e => e.id).Nodup) :
    (add_entities_from_document emptyKG doc ents ft).1.relationships.length =
        ents.length * (ents.length - 1) / 2 ∧
      ∀ p ∈ (add_entities_from_document emptyKG doc ents ft).1.relationships,
        p.2.relation_type = "CO_OCCURS" ∧ p.2.confidence = 1/2 ∧
        p.2.evidence = [⟨doc, "Both mentioned in document " ++ doc, 1/2⟩] ∧
        p.2.source_entity_id ≠ p.2.target_entity_id := by
  have hingest : add_entities_from_document emptyKG doc ents ft =
      (detect_cooccurrence doc (addAllEntities doc ft emptyKG ents).1
          ((addAllEntities doc ft emptyKG ents).2.map fun e => e.id),
        (addAllEntities doc ft emptyKG ents).2) := rfl
  rw [hingest] at h ⊢
  simp only at h ⊢
  have hkeyed : EntitiesKeyed (addAllEntities doc ft emptyKG ents).1 :=
    addAll_entitiesKeyed doc ft ents emptyKG entitiesKeyed_empty
  have hreg := addAll_ret_registered doc ft ents emptyKG entitiesKeyed_empty
  have hrels : (addAllEntities doc ft emptyKG ents).1.relationships = [] :=
    addAll_relationships doc ft ents emptyKG
  rcases cooccurPairs_nodup h with ⟨hpnd, hpne⟩
  have hok : ∀ p ∈ cooccurPairs
      ((addAllEntities doc ft emptyKG ents).2.map fun e => e.id),
      p.1 ≠ p.2 ∧
      (alookup (addAllEntities doc ft emptyKG ents).1.entities p.1).isSome ∧
      (alookup (addAllEntities doc ft emptyKG ents).1.entities p.2).isSome := by
    intro p hp
    refine ⟨hpne p hp, ?_, ?_⟩
    · rcases List.mem_map.mp (cooccurPairs_mem hp).1 with ⟨e, he, hid⟩
      rw [← hid]
      exact hreg e he
    · rcases List.mem_map.mp (cooccurPairs_mem hp).2 with ⟨e, he, hid⟩
      rw [← hid]
      exact hreg e he
  have hkeys : ((cooccurPairs
      ((addAllEntities doc ft emptyKG ents).2.map fun e => e.id)).map
        fun p => ((p.1, "CO_OCCURS", p.2) : RelKey)).Nodup := by
    refine List.Nodup.map ?_ hpnd
    intro p q hpq
    cases p; cases q
    simp only [Prod.mk.injEq] at hpq ⊢
    exact ⟨hpq.1, hpq.2.2⟩
  have hfresh : ∀ p ∈ cooccurPairs
      ((addAllEntities doc ft emptyKG ents).2.map fun e => e.id),
      alookup (addAllEntities doc ft emptyKG ents).1.relationships
        (p.1, "CO_OCCURS", p.2) = none := by
    intro p hp
    rw [hrels]
    rfl
  have hfold := detect_fold_fresh doc
    (cooccurPairs ((addAllEntities doc ft emptyKG ents).2.map fun e => e.id))
    (addAllEntities doc ft emptyKG ents).1 hok hkeys hfresh
  have hdet : (detect_cooccurrence doc (addAllEntities doc ft emptyKG ents).1
      ((addAllEntities doc ft emptyKG ents).2.map fun e => e.id)).relationships =
      (addAllEntities doc ft emptyKG ents).1.relationships ++
        (cooccurPairs ((addAllEntities doc ft emptyKG ents).2.map
          fun e => e.id)).map fun p =>
          (((p.1, "CO_OCCURS", p.2) : RelKey),
            rel_add_evidence ⟨p.1, p.2, "CO_OCCURS", [], 1/2⟩ doc
              ("Both mentioned in document " ++ doc) (1/2)) := hfold
  rw [hdet, hrels]
  constructor
  · have hlen2 : 2 * (cooccurPairs
        ((addAllEntities doc ft emptyKG ents).2.map fun e => e.id)).length =
        ents.length * (ents.length - 1) := by
      rw [cooccurPairs_double_length]
      rw [List.length_map, addAll_ret_length]
    simp only [List.nil_append, List.length_map]
    rw [← hlen2]
    omega
  · intro p hp
    simp only [List.nil_append] at hp
    rcases List.mem_map.mp hp with ⟨q, hq, hpq⟩
    subst hpq
    refine ⟨rfl, ?_, ?_, hpne q hq⟩
    · simp [rel_add_evidence]
    · simp [rel_add_evidence]

unseal Rat.mul Rat.inv Rat.add in
/-- Witness for C2: ingesting three records that resolve to three distinct
entities into the empty graph yields exactly 3 = 3(3-1)/2 CO_OCCURS edges;
the aa-bb edge carries confidence 1/2 and one evidence entry naming the
document. -/
theorem claim_c2_witness :
    (add_entities_from_document emptyKG "d" threeRecords "").1.relationships.length
      = 3 ∧
    cooccurValue.relation_type = "CO_OCCURS" ∧ cooccurValue.confidence = 1/2 ∧
    cooccurValue.evidence =
      [⟨"d", "Both mentioned in document " ++ "d", 1/2⟩] ∧
    cooccurValue.source_entity_id ≠ cooccurValue.target_entity_id := by
  have h := claim_c2_cooccurrence_complete "d" "" threeRecords (by decide)
  have h2 := h.2 (("aa:MISC", "CO_OCCURS", "bb:MISC"), cooccurValue) (by decide)
  exact ⟨by simpa using h.1, h2.1, h2.2.1, h2.2.2.1, h2.2.2.2⟩

/-- Claim C10: no self-loop co-occurrence edges. In any well-keyed state, any
relationship entry that an ingestion call creates or modifies joins two
distinct entity ids (records canonicalizing to the same entity are skipped by
the `e1_id != e2_id` guard, and pair enumeration never revisits an index). -/
theorem claim_c10_no_self_loops (s : KGState) (hw : WellKeyed s)
    (doc ft : String) (ents : List EntityRecord) (k : RelKey)
    (h : alookup (add_entities_from_document s doc ents ft).1.relationships k ≠
      alookup s.relationships k) :
    ∃ r, alookup (add_entities_from_document s doc ents ft).1.relationships k
        = some r ∧
      r.source_entity_id ≠ r.target_entity_id := by
  have hingest : (add_entities_from_document s doc ents ft).1 =
      detect_cooccurrence doc (addAllEntities doc ft s ents).1
        ((addAllEntities doc ft s ents).2.map fun e => e.id) := rfl
  rw [hingest] at h ⊢
  have hpre : (addAllEntities doc ft s ents).1.relationships = s.relationships :=
    addAll_relationships doc ft ents s
  have hw1 : WellKeyed (addAllEntities doc ft s ents).1 := by
    unfold WellKeyed
    rw [hpre]
    exact hw
  rw [← hpre] at h
  have hmain : alookup ((cooccurPairs
        ((addAllEntities doc ft s ents).2.map fun e => e.id)).foldl
        (fun st p =>
          if p.1 = p.2 then st
          else (add_relationship st p.1 p.2 "CO_OCCURS" doc
                  ("Both mentioned in document " ++ doc) (1/2)).1)
        (addAllEntities doc ft s ents).1).relationships k ≠
      alookup (addAllEntities doc ft s ents).1.relationships k := h
  rcases detect_fold_changes doc
    (cooccurPairs ((addAllEntities doc ft s ents).2.map fun e => e.id))
    (addAllEntities doc ft s ents).1 hw1 k hmain with ⟨r, hr, hne⟩
  exact ⟨r, hr, hne⟩

unseal Rat.mul Rat.inv Rat.add in
/-- Witness for C10: the edge that ingesting two records into the empty graph
creates joins the two distinct entity ids. -/
theorem claim_c10_witness :
    ∃ r, alookup kgIngestTwo.relationships ("aa:MISC", "CO_OCCURS", "bb:MISC")
        = some r ∧
      r.source_entity_id ≠ r.target_entity_id :=
  claim_c10_no_self_loops emptyKG wellKeyed_empty "d" ""
    [⟨"aa", "MISC", 1⟩, ⟨"bb", "MISC", 1⟩]
    ("aa:MISC", "CO_OCCURS", "bb:MISC") (by decide)

/-- Claim C5 (amended): `search_entities` collects matches in storage order
and breaks off the scan once `limit` matches are gathered, before sorting; so
it returns a permutation of the FIRST `limit` matching entities (not the
global top-`limit` by mention count), sorted by mention count descending
(stable, so ties keep storage order). -/
theorem claim_c5_amended_first_matches_sorted (s : KGState) (query : String)
    (limit : Nat) :
    List.Perm (search_entities s query limit)
      (((s.entities.map fun p => p.2).filter
        (entityMatches (pyLower query))).take limit) ∧
    (search_entities s query limit).Pairwise
      (fun a b => b.mentions.length ≤ a.mentions.length) := by
  have hse : search_entities s query limit =
      (sortDesc (fun e => e.mentions.length)
        (scanMatches (pyLower query) limit []
          (s.entities.map fun p => p.2))).take limit := rfl
  constructor
  · rw [hse]
    rcases Nat.eq_zero_or_pos limit with hl | hl
    · subst hl
      simp
    · rw [scanMatches_eq (pyLower query) limit _ [] (by simpa using hl)]
      simp only [List.nil_append, List.length_nil, Nat.sub_zero]
      have hperm := sortDesc_perm (fun e : Entity => e.mentions.length)
        (((s.entities.map fun p => p.2).filter
          (entityMatches (pyLower query))).take limit)
      have hlen : (sortDesc (fun e : Entity => e.mentions.length)
          (((s.entities.map fun p => p.2).filter
            (entityMatches (pyLower query))).take limit)).length ≤ limit := by
        rw [hperm.length_eq, List.length_take]
        exact Nat.min_le_left _ _
      rw [List.take_of_length_le hlen]
      exact hperm
  · rw [hse]
    exact (sortDesc_pairwise (fun e : Entity => e.mentions.length) _).sublist
      (List.take_sublist _ _)

unseal Rat.mul Rat.inv Rat.add in
/-- Counterexample to C5 as stated: with limit 1 and query "aa", both stored
entities match and the second has 2 mentions, but the scan breaks after the
first match, so the single-mention first entity is returned rather than the
top match by mention count. -/
theorem claim_c5_counterexample :
    (search_entities kgSearchState "aa" 1).map (fun e => e.id) = ["aaa:MISC"] ∧
    (∀ e ∈ search_entities kgSearchState "aa" 1, e.mentions.length = 1) ∧
    ∃ e ∈ kgSearchState.entities.map (fun p => p.2),
      entityMatches (pyLower "aa") e = true ∧ e.mentions.length = 2 := by
  refine ⟨by decide, by decide, by decide⟩

/-- Claim C6 (code evaluated at the failing input): the keyword extractor
keeps only tokens with strictly more than three characters, so for the
content "fox fox fox jumps" the non-stopword 3-letter token "fox", although
the most frequent, is dropped and the keyword list is just ["jumps"] — both
for the bare extractor and for the document created by `add_document`. -/
theorem claim_c6_code_eval :
    extract_keywords "fox fox fox jumps" = ["jumps"] ∧
    "fox" ∉ stopwords ∧
    (add_document emptyDS "d" "f" "fox fox fox jumps" "" "txt" []).2.keywords
      = ["jumps"] := by
  refine ⟨by decide, by decide, by decide⟩

/-- Claim C7 (amended): `add_entity` updates the text-to-ids index only in the
branch creating a new entity — there the bucket of the lowercase raw text
contains the new id and `find_entity` on the raw text returns the entity;
when the raw text merges into an existing entity the index is unchanged. -/
theorem claim_c7_amended_index_on_create (s : KGState) (t ty d c : String)
    (cf : Rat) :
    (alookup s.entities (generate_id (canonicalize t ty) ty) = none →
      (add_entity s t ty d c cf).2.id ∈
        ((alookup (add_entity s t ty d c cf).1.entity_index (pyLower t)).getD []) ∧
      (add_entity s t ty d c cf).2 ∈ find_entity (add_entity s t ty d c cf).1 t) ∧
    (∀ e0, alookup s.entities (generate_id (canonicalize t ty) ty) = some e0 →
      (add_entity s t ty d c cf).1.entity_index = s.entity_index) := by
  constructor
  · intro hnone
    have hcase : add_entity s t ty d c cf =
        ({ s with
            entities := aupdate s.entities (generate_id (canonicalize t ty) ty)
              ⟨generate_id (canonicalize t ty) ty, t, canonicalize t ty, ty,
                [⟨d, c, cf⟩]⟩,
            entity_index := indexAdd s.entity_index (pyLower t)
              (generate_id (canonicalize t ty) ty),
            doc_entities := indexAdd s.doc_entities d
              (generate_id (canonicalize t ty) ty) },
          ⟨generate_id (canonicalize t ty) ty, t, canonicalize t ty, ty,
            [⟨d, c, cf⟩]⟩) := by
      simp only [add_entity]
      rw [hnone]
      simp [entity_add_mention]
    rw [hcase]
    constructor
    · exact indexAdd_self_mem s.entity_index (pyLower t) _
    · unfold find_entity
      apply List.mem_filterMap.mpr
      refine ⟨generate_id (canonicalize t ty) ty, ?_, ?_⟩
      · exact indexAdd_self_mem s.entity_index (pyLower t) _
      · exact alookup_aupdate_self s.entities _ _
  · intro e0 hsome
    have hcase : add_entity s t ty d c cf =
        ({ s with
            entities := aupdate s.entities (generate_id (canonicalize t ty) ty)
              (entity_add_mention e0 d c cf),
            doc_entities := indexAdd s.doc_entities d
              (generate_id (canonicalize t ty) ty) },
          entity_add_mention e0 d c cf) := by
      simp only [add_entity]
      rw [hsome]
    rw [hcase]

unseal Rat.mul Rat.inv Rat.add in
/-- Witness for C7 (amended): creating "aaa" from the empty store indexes it
and makes it findable; merging "Dr. Jane Smith" into the existing
"Jane Smith" entity leaves the index unchanged. -/
theorem claim_c7_witness :
    ((add_entity emptyKG "aaa" "MISC" "d1" "" 1).2.id ∈
      ((alookup (add_entity emptyKG "aaa" "MISC" "d1" "" 1).1.entity_index
        (pyLower "aaa")).getD []) ∧
      (add_entity emptyKG "aaa" "MISC" "d1" "" 1).2 ∈
        find_entity (add_entity emptyKG "aaa" "MISC" "d1" "" 1).1 "aaa") ∧
    kgJane.entity_index =
      (add_entity emptyKG "Jane Smith" "PERSON" "d1" "" 1).1.entity_index := by
  constructor
  · exact (claim_c7_amended_index_on_create emptyKG "aaa" "MISC" "d1" "" 1).1 rfl
  · exact (claim_c7_amended_index_on_create
      (add_entity emptyKG "Jane Smith" "PERSON" "d1" "" 1).1
      "Dr. Jane Smith" "PERSON" "d2" "" 1).2
      ⟨"jane smith:PERSON", "Jane Smith", "Jane Smith", "PERSON",
        [⟨"d1", "", 1⟩]⟩ (by decide)

unseal Rat.mul Rat.inv Rat.add in
/-- Counterexample to C7 as stated: the upsert of the alternate surface form
"Dr. Jane Smith" merges into the existing entity, but the index has no bucket
for "dr. jane smith" afterwards, so `find_entity` on that raw text is empty. -/
theorem claim_c7_counterexample :
    (add_entity (add_entity emptyKG "Jane Smith" "PERSON" "d1" "" 1).1
        "Dr. Jane Smith" "PERSON" "d2" "" 1).2.id = "jane smith:PERSON" ∧
    alookup kgJane.entity_index "dr. jane smith" = none ∧
    find_entity kgJane "Dr. Jane Smith" = [] := by
  refine ⟨by decide, by decide, by decide⟩

/-- Claim C8 (amended): deleting a stored document returns true, removes it,
retracts its id from the bucket of every keyword of its CURRENT keyword list,
and full-text search never returns a document with that id afterwards;
deleting an absent id returns false and leaves the store unchanged. (Buckets
keyed by keywords of an earlier ingestion of the same id may retain it — see
the counterexample.) -/
theorem claim_c8_amended_deletion (s : DSState) (doc_id : String) :
    (alookup s.documents doc_id = none → delete_document s doc_id = (s, false)) ∧
    (∀ doc, alookup s.documents doc_id = some doc →
      (delete_document s doc_id).2 = true ∧
      alookup (delete_document s doc_id).1.documents doc_id = none ∧
      (∀ k ∈ doc.keywords,
        doc_id ∉ ((alookup (delete_document s doc_id).1.keyword_index k).getD [])) ∧
      (KeysOk s → ∀ (q : String) (n : Nat) (p : Document × Nat),
        p ∈ search_full_text (delete_document s doc_id).1 q n →
          p.1.id ≠ doc_id)) := by
  constructor
  · exact delete_document_absent s doc_id
  · intro doc hdoc
    rw [delete_document_present s doc_id hdoc]
    refine ⟨rfl, ?_, ?_, ?_⟩
    · exact alookup_aremove_self s.documents doc_id
    · intro k hk
      exact discard_fold_self doc_id doc.keywords s.keyword_index k hk
    · intro hkeys q n p hp
      have hmem := search_full_text_mem _ q n hp
      rcases List.mem_map.mp hmem with ⟨pr, hpr, hp1⟩
      rcases mem_aremove hpr with ⟨hpr0, hkne⟩
      rw [← hp1, hkeys pr hpr0]
      exact hkne

unseal Rat.mul Rat.inv Rat.add in
/-- Witness for C8 (amended): deleting d1 from a two-document store returns
true, removes it, empties its "alpha" bucket, and the search for "bravo"
returns only d2; deleting an absent id is a false-returning no-op. -/
theorem claim_c8_witness :
    (delete_document dsTwo "d1").2 = true ∧
    alookup (delete_document dsTwo "d1").1.documents "d1" = none ∧
    "d1" ∉ ((alookup (delete_document dsTwo "d1").1.keyword_index "alpha").getD []) ∧
    doc2Value.id ≠ "d1" ∧
    delete_document emptyDS "zzz" = (emptyDS, false) := by
  have h := (claim_c8_amended_deletion dsTwo "d1").2 doc1Value (by decide)
  refine ⟨h.1, h.2.1, h.2.2.1 "alpha" (by decide), ?_, ?_⟩
  · exact h.2.2.2 (by unfold KeysOk; decide) "bravo" 10 (doc2Value, 3) (by decide)
  · exact (claim_c8_amended_deletion emptyDS "zzz").1 rfl

unseal Rat.mul Rat.inv Rat.add in
/-- Counterexample to C8 as stated: after re-ingesting d1 with content whose
keyword list is ["bravo"], the stale "alpha" bucket from the first ingestion
still references d1, and deletion only retracts the current keywords, so a
keyword bucket still contains the deleted id. -/
theorem claim_c8_counterexample :
    (delete_document dsReingested "d1").2 = true ∧
    alookup (delete_document dsReingested "d1").1.keyword_index "alpha"
      = some ["d1"] := by
  refine ⟨by decide, by decide⟩

/-- Claim C9: connection-query symmetry. Whenever both names resolve,
`find_connections` succeeds in both argument orders with the same list of
direct relationships (type, confidence, evidence), the same set of shared
document ids, and the same connection strength (strong when a direct edge
exists, else moderate when documents are shared, else weak). -/
theorem claim_c9_connections_symmetric (s : KGState) (n1 n2 : String)
    (h1 : find_entity s n1 ≠ []) (h2 : find_entity s n2 ≠ []) :
    ∃ r12 r21, find_connections s n1 n2 = some r12 ∧
      find_connections s n2 n1 = some r21 ∧
      r12.direct_relationships = r21.direct_relationships ∧
      (∀ d, d ∈ r12.shared_documents ↔ d ∈ r21.shared_documents) ∧
      r12.connection_strength = r21.connection_strength := by
  rcases List.exists_cons_of_ne_nil h1 with ⟨e1, t1, he1⟩
  rcases List.exists_cons_of_ne_nil h2 with ⟨e2, t2, he2⟩
  refine ⟨mkConn s e1 e2, mkConn s e2 e1, ?_, ?_, ?_, ?_, ?_⟩
  · simp [find_connections, he1, he2]
  · simp [find_connections, he1, he2]
  · exact directRels_symm s e1.id e2.id
  · intro d
    show d ∈ sharedDocs e1 e2 ↔ d ∈ sharedDocs e2 e1
    rw [mem_sharedDocs, mem_sharedDocs]
    exact And.comm
  · exact connStrength_swap s e1 e2

unseal Rat.mul Rat.inv Rat.add in
/-- Witness for C9 on a concrete two-entity store with one direct edge. -/
theorem claim_c9_witness :
    ∃ r12 r21, find_connections kgRelTwice "aaa" "aab" = some r12 ∧
      find_connections kgRelTwice "aab" "aaa" = some r21 ∧
      r12.direct_relationships = r21.direct_relationships ∧
      (∀ d, d ∈ r12.shared_documents ↔ d ∈ r21.shared_documents) ∧
      r12.connection_strength = r21.connection_strength :=
  claim_c9_connections_symmetric kgRelTwice "aaa" "aab" (by decide) (by decide)
